import Mathlib

/-!
Verification of the illinois-salary-parity extraction and analysis scripts.

The development shallowly embeds the three Python source files
(`parse_graybook.py`, `parse_graybook_html.py`, `analyze_parity.py`).
Python's `float` values are modelled as exact rationals (`ℚ`); the decimal
grammar accepted by Python's `float()` built-in (optional sign, digits with
single underscores between them, optional fraction and exponent, surrounding
whitespace) is implemented explicitly.  IEEE special spellings (`inf`,
`nan`) lie outside the rational model and are treated as unparseable.
Python `str.upper()` is modelled on its ASCII fragment.
-/

/-- Whitespace characters stripped by Python's `str.strip()` and `float()`
(ASCII fragment). -/
def isPyWS (c : Char) : Bool :=
  c == ' ' || c == '\t' || c == '\n' || c == '\r' || c == '\x0b' || c == '\x0c'

/-- Model of Python `str.replace(d, '')`: drop every occurrence of `d`. -/
def removeChar (l : List Char) (d : Char) : List Char :=
  l.filter (fun c => !(c == d))

/-- Model of Python `str.strip()` on a character list. -/
def pyStripChars (l : List Char) : List Char :=
  ((l.dropWhile isPyWS).reverse.dropWhile isPyWS).reverse

/-- Model of Python `str.strip()`. -/
def pyStrip (s : String) : String :=
  String.mk (pyStripChars s.data)

/-- Model of Python `str.upper()` (ASCII fragment). -/
def pyUpper (s : String) : String :=
  String.mk (s.data.map Char.toUpper)

/-- Substring containment on character lists: model of Python's `needle in hay`. -/
def containsSub (hay need : List Char) : Bool :=
  (List.range (hay.length + 1)).any (fun i => need.isPrefixOf (hay.drop i))

/-- Model of Python's `needle in hay` on strings. -/
def strContains (hay need : String) : Bool :=
  containsSub hay.data need.data

/-- Numeric value of a list of decimal digit characters. -/
def natOfDigits (l : List Char) : ℕ :=
  l.foldl (fun a c => 10 * a + (c.toNat - 48)) 0

/-- Continuation of a digit run for Python's numeric grammar: digits with
single underscores allowed between digits.  Returns the digits consumed
(underscores removed) and the unconsumed remainder. -/
def digitsCont : List Char → List Char × List Char
  | [] => ([], [])
  | c :: rest =>
    if c.isDigit then
      let p := digitsCont rest
      (c :: p.1, p.2)
    else if c = '_' then
      match rest with
      | c2 :: rest2 =>
        if c2.isDigit then
          let p := digitsCont rest2
          (c2 :: p.1, p.2)
        else ([], c :: rest)
      | [] => ([], [c])
    else ([], c :: rest)

/-- A `digitpart` of Python's float grammar: a digit run that must start with
a digit, with single underscores allowed between digits. -/
def takeDigitpart (l : List Char) : List Char × List Char :=
  match l with
  | [] => ([], [])
  | c :: rest =>
    if c.isDigit then
      let p := digitsCont rest
      (c :: p.1, p.2)
    else ([], c :: rest)

/-- Optional leading sign of Python's float grammar. -/
def parseSign (l : List Char) : Bool × List Char :=
  match l with
  | [] => (false, [])
  | c :: r =>
    if c = '-' then (true, r)
    else if c = '+' then (false, r)
    else (false, c :: r)

/-- Optional exponent suffix of Python's float grammar, applied to an already
parsed mantissa `m`; the remainder after the exponent must be empty. -/
def parseExp (m : ℚ) (l : List Char) : Option ℚ :=
  match l with
  | [] => some m
  | c :: r =>
    if c = 'e' ∨ c = 'E' then
      if (takeDigitpart (parseSign r).2).1.isEmpty then none
      else if (takeDigitpart (parseSign r).2).2.isEmpty then
        some (if (parseSign r).1 then m / ((10 : ℚ) ^ natOfDigits (takeDigitpart (parseSign r).2).1)
              else m * ((10 : ℚ) ^ natOfDigits (takeDigitpart (parseSign r).2).1))
      else none
    else none

/-- Mantissa (and exponent) of Python's float grammar, after the sign:
`digitpart`, `digitpart '.' [digitpart]`, or `'.' digitpart`, followed by an
optional exponent. -/
def parseAfterSign (l : List Char) : Option ℚ :=
  match (takeDigitpart l).2 with
  | '.' :: r2 =>
    if (takeDigitpart l).1.isEmpty && (takeDigitpart r2).1.isEmpty then none
    else parseExp ((natOfDigits (takeDigitpart l).1 : ℚ) +
        (natOfDigits (takeDigitpart r2).1 : ℚ) / ((10 : ℚ) ^ (takeDigitpart r2).1.length))
      (takeDigitpart r2).2
  | r1 =>
    if (takeDigitpart l).1.isEmpty then none
    else parseExp (natOfDigits (takeDigitpart l).1 : ℚ) r1

/-- Model of Python's `float(str)` on finite decimal literals: strip
whitespace, read an optional sign, then mantissa and exponent.  `none` models
a raised `ValueError`. -/
def pythonFloat (l : List Char) : Option ℚ :=
  match parseAfterSign (parseSign (pyStripChars l)).2 with
  | some q => some (if (parseSign (pyStripChars l)).1 then -q else q)
  | none => none

/-- One appointment line, shared by both pipelines (dataclass `Position`). -/
structure Position where
  title : String
  tenure_code : String
  empl_class : String
  present_fte : ℚ
  proposed_fte : ℚ
  present_salary : ℚ
  proposed_salary : ℚ
deriving DecidableEq, Repr

/-- Python's `max(key=...)` over a non-empty list keeps the first element and
replaces it only on a strictly greater key, so the first maximum wins. -/
def maxBySalary (best : Position) : List Position → Position
  | [] => best
  | p :: rest =>
    if best.present_salary < p.present_salary then maxBySalary p rest
    else maxBySalary best rest

namespace Html

/-- `parse_salary` of `parse_graybook_html.py`: strip `'$'` and `','`, strip
whitespace, parse as a float, returning `0.0` on failure. -/
def parse_salary (s : String) : ℚ :=
  let cleaned := pyStripChars (removeChar (removeChar s.data '$') ',')
  (pythonFloat cleaned).getD 0

/-- `parse_fte` of `parse_graybook_html.py`. -/
def parse_fte (s : String) : ℚ :=
  (pythonFloat (pyStripChars s.data)).getD 0

/-- `FacultyMember` of `parse_graybook_html.py`. -/
structure FacultyMember where
  name : String
  department : String
  positions : List Position
deriving DecidableEq, Repr

/-- `FacultyMember.primary_position` of `parse_graybook_html.py`: the first
maximum-salary position among those with positive salary, or the first
position when none is positive. -/
def FacultyMember.primary_position (m : FacultyMember) : Option Position :=
  match m.positions with
  | [] => none
  | _ :: _ =>
    match m.positions.filter (fun p => decide (0 < p.present_salary)) with
    | q :: qs => some (maxBySalary q qs)
    | [] => m.positions.head?

/-- Title classifier of `FacultyMember.faculty_type` in
`parse_graybook_html.py`, as a function of the raw title. -/
def facultyTypeOfTitle (t : String) : String :=
  let title := pyUpper t
  if strContains title "TCH " || strContains title "TEACHING" ||
     strContains title "SR. LECTURER" || strContains title "SR LECTURER" ||
     strContains title "LECTURER" then "teaching"
  else if strContains title "RES " &&
          (strContains title "PROF" || strContains title "ASSOC" || strContains title "ASST")
    then "research"
  else if strContains title "CLIN" || strContains title "CLINICAL" then "clinical"
  else if strContains title "PROF" then "tenure_track"
  else if strContains title "INSTR" then "teaching"
  else "other"

/-- `FacultyMember.faculty_type` of `parse_graybook_html.py`. -/
def FacultyMember.faculty_type (m : FacultyMember) : String :=
  match m.primary_position with
  | none => "unknown"
  | some p => facultyTypeOfTitle p.title

/-- Title classifier of `FacultyMember.rank` in `parse_graybook_html.py`. -/
def rankOfTitle (t : String) : String :=
  let title := pyUpper t
  if strContains title "ASST PROF" || strContains title "ASSISTANT PROF" then "assistant"
  else if strContains title "ASSOC PROF" || strContains title "ASSOCIATE PROF" then "associate"
  else if strContains title "PROF" then "full"
  else if strContains title "SR" && strContains title "LECTURER" then "senior_lecturer"
  else if strContains title "LECTURER" then "lecturer"
  else if strContains title "INSTR" then "instructor"
  else "other"

/-- `FacultyMember.rank` of `parse_graybook_html.py`. -/
def FacultyMember.rank (m : FacultyMember) : String :=
  match m.primary_position with
  | none => "unknown"
  | some p => rankOfTitle p.title

/-- `FacultyMember.total_present_salary` of `parse_graybook_html.py`. -/
def FacultyMember.total_present_salary (m : FacultyMember) : ℚ :=
  (m.positions.map (fun p => p.present_salary)).sum

/-- `FacultyMember.total_present_fte` of `parse_graybook_html.py`. -/
def FacultyMember.total_present_fte (m : FacultyMember) : ℚ :=
  (m.positions.map (fun p => p.present_fte)).sum

/-- `FacultyMember.is_full_time_here` of `parse_graybook_html.py`. -/
def FacultyMember.is_full_time_here (m : FacultyMember) : Bool :=
  decide ((9 : ℚ) / 10 ≤ m.total_present_fte)

/-- `FacultyMember.is_joint_appointment` of `parse_graybook_html.py`. -/
def FacultyMember.is_joint_appointment (m : FacultyMember) : Bool :=
  decide (m.total_present_fte < (9 : ℚ) / 10) || decide (m.total_present_salary = 0)

/-- The `Position` built from a processed table row's cells
(`GrayBookHTMLParser._process_row`, row indices 1..7). -/
def rowPosition (row : List String) : Position :=
  ⟨row.getD 1 "", row.getD 2 "", row.getD 3 "",
   parse_fte (row.getD 4 ""), parse_fte (row.getD 5 ""),
   parse_salary (row.getD 6 ""), parse_salary (row.getD 7 "")⟩

/-- `GrayBookHTMLParser._process_row` restricted to one department's faculty
list: rows with fewer than 8 cells or an `Employee Total` title are dropped;
a row whose name is blank or equal to the last member's name extends the last
member's positions; otherwise a new member is appended. -/
def processRow (deptId : String) (fac : List FacultyMember) (row : List String) :
    List FacultyMember :=
  if row.length < 8 then fac
  else
    let name := row.getD 0 ""
    let title := row.getD 1 ""
    if strContains title "Employee Total" then fac
    else
      let pos := rowPosition row
      match fac.getLast? with
      | some last =>
        if name = "" ∨ name = last.name then
          fac.dropLast ++ [{ last with positions := last.positions ++ [pos] }]
        else fac ++ [⟨name, deptId, [pos]⟩]
      | none => fac ++ [⟨name, deptId, [pos]⟩]

end Html

/-- Parser state of `GrayBookHTMLParser` (`parse_graybook_html.py`). -/
structure PState where
  departments : List (String × List Html.FacultyMember)
  current_dept_id : Option String
  current_dept_name : Option String
  in_table : Bool
  in_thead : Bool
  in_row : Bool
  in_cell : Bool
  current_row : List String
  current_cell_text : String
  college : Option String
deriving DecidableEq, Repr

namespace Html

/-- Python `dict(attrs)[key]` lookup: the last binding of a key wins. -/
def dictGet (attrs : List (String × String)) (k : String) : Option String :=
  (attrs.reverse.find? (fun a => a.1 == k)).map (fun a => a.2)

/-- Initial state of `GrayBookHTMLParser.__init__`. -/
def initState : PState :=
  ⟨[], none, none, false, false, false, false, [], "", none⟩

/-- `GrayBookHTMLParser.handle_starttag`. -/
def handle_starttag (st : PState) (tag : String) (attrs : List (String × String)) : PState :=
  let st := if tag = "h2" then { st with college := none } else st
  let st := if tag = "h3" then
      match dictGet attrs "id" with
      | some v => { st with current_dept_id := some v }
      | none => st
    else st
  let st := if tag = "table" then { st with in_table := true } else st
  let st := if tag = "thead" then { st with in_thead := true } else st
  let st := if tag = "tr" ∧ st.in_table = true ∧ st.in_thead = false then
      { st with in_row := true, current_row := [] }
    else st
  let st := if (tag = "td" ∨ tag = "th") ∧ st.in_row = true then
      { st with in_cell := true, current_cell_text := "" }
    else st
  st

/-- `_process_row` acting on the parser's department map: the department dict
entry is created only for rows that pass the length and `Employee Total`
filters, then the row is assembled into that department's faculty list. -/
def processRowInDepts (depts : List (String × List FacultyMember)) (deptId : String)
    (row : List String) : List (String × List FacultyMember) :=
  if row.length < 8 then depts
  else if strContains (row.getD 1 "") "Employee Total" then depts
  else
    let depts1 := if depts.any (fun x => x.1 == deptId) then depts else depts ++ [(deptId, [])]
    depts1.map (fun x => if x.1 = deptId then (x.1, processRow deptId x.2 row) else x)

/-- `GrayBookHTMLParser.handle_endtag`; a row is processed only when the
current row is non-empty and a (truthy, hence non-empty) department id has
been seen. -/
def handle_endtag (st : PState) (tag : String) : PState :=
  let st := if tag = "thead" then { st with in_thead := false } else st
  let st := if tag = "table" then { st with in_table := false } else st
  let st := if (tag = "td" ∨ tag = "th") ∧ st.in_cell = true then
      { st with in_cell := false,
                current_row := st.current_row ++ [pyStrip st.current_cell_text] }
    else st
  let st := if tag = "tr" ∧ st.in_row = true then
      let st2 := { st with in_row := false }
      match st2.current_row, st2.current_dept_id with
      | [], _ => st2
      | _ :: _, none => st2
      | _ :: _, some d =>
        if d = "" then st2
        else { st2 with departments := processRowInDepts st2.departments d st2.current_row }
    else st
  st

/-- `GrayBookHTMLParser.handle_data`. -/
def handle_data (st : PState) (s : String) : PState :=
  if st.in_cell = true then { st with current_cell_text := st.current_cell_text ++ s } else st

end Html

/-- One markup event fed to the stream parser. -/
inductive HtmlEvent where
  | startTag (tag : String) (attrs : List (String × String))
  | endTag (tag : String)
  | textData (s : String)
deriving DecidableEq, Repr

namespace Html

/-- Dispatch of one event to the `GrayBookHTMLParser` handlers. -/
def step (st : PState) (e : HtmlEvent) : PState :=
  match e with
  | .startTag t a => handle_starttag st t a
  | .endTag t => handle_endtag st t
  | .textData s => handle_data st s

/-- Feeding a whole event stream from the initial state. -/
def feed (events : List HtmlEvent) : PState :=
  events.foldl step initState

/-- Whether an event is a department heading: an `h3` start tag carrying an
`id` attribute. -/
def isDeptHeading (e : HtmlEvent) : Bool :=
  match e with
  | .startTag t a => t == "h3" && (dictGet a "id").isSome
  | _ => false

/-- Department-lookup phase of `main` in `parse_graybook_html.py`: the first
department whose name contains `"Siebel School"` or `"434 -"`.  When none is
found, `main` prints a message and returns normally (modelled as `.ok none`):
no error is raised. -/
def mainDeptPhase (deptNames : List (String × String)) : Except String (Option String) :=
  match deptNames.find? (fun p => strContains p.2 "Siebel School" || strContains p.2 "434 -") with
  | some p => .ok (some p.1)
  | none => .ok none

/-- Keys of each faculty record written to `cs_faculty_salaries.json` by
`main` of `parse_graybook_html.py`, in source order. -/
def outputRecordFields : List String :=
  ["name", "faculty_type", "rank", "is_full_time_here", "is_joint_appointment",
   "total_present_salary", "total_proposed_salary", "total_present_fte", "positions"]

end Html

namespace Docx

/-- `parse_salary` of `parse_graybook.py`: strip `'$'` and `','` and parse as
a float (Python's `float()` itself ignores surrounding whitespace), returning
`0.0` on failure. -/
def parse_salary (s : String) : ℚ :=
  let cleaned := removeChar (removeChar s.data '$') ','
  (pythonFloat cleaned).getD 0

/-- `FacultyMember` of `parse_graybook.py` (no department field). -/
structure FacultyMember where
  name : String
  positions : List Position
deriving DecidableEq, Repr

/-- `FacultyMember.primary_position` of `parse_graybook.py`: Python's `max`
over all positions keyed by `present_salary` (first maximum wins), with no
positivity filter. -/
def FacultyMember.primary_position (m : FacultyMember) : Option Position :=
  match m.positions with
  | [] => none
  | p :: rest => some (maxBySalary p rest)

/-- Title classifier of `FacultyMember.faculty_type` in `parse_graybook.py`. -/
def facultyTypeOfTitle (t : String) : String :=
  let title := pyUpper t
  if strContains title "TCH " || strContains title "TEACHING" ||
     strContains title "LECTURER" || strContains title "INSTR " then "teaching"
  else if strContains title "RES " && strContains title "PROF" then "research_only"
  else if strContains title "CLIN" || strContains title "CLINICAL" then "clinical"
  else if strContains title "PROF" then "tenure_track"
  else "other"

/-- `FacultyMember.faculty_type` of `parse_graybook.py`. -/
def FacultyMember.faculty_type (m : FacultyMember) : String :=
  match m.primary_position with
  | none => "unknown"
  | some p => facultyTypeOfTitle p.title

/-- Title classifier of `FacultyMember.rank` in `parse_graybook.py`: note the
bare `"ASSISTANT"` / `"ASSOCIATE"` keywords and the nested `"SR"` test. -/
def rankOfTitle (t : String) : String :=
  let title := pyUpper t
  if strContains title "ASST PROF" || strContains title "ASSISTANT" then "assistant"
  else if strContains title "ASSOC PROF" || strContains title "ASSOCIATE" then "associate"
  else if strContains title "PROF" then "full"
  else if strContains title "LECTURER" then
    (if strContains title "SR" then "senior_lecturer" else "lecturer")
  else if strContains title "INSTR" then "instructor"
  else "other"

/-- `FacultyMember.rank` of `parse_graybook.py`. -/
def FacultyMember.rank (m : FacultyMember) : String :=
  match m.primary_position with
  | none => "unknown"
  | some p => rankOfTitle p.title

/-- One match of the positional entry regular expression of
`parse_faculty_simple` in `parse_graybook.py`: the seven captured groups.
The engine guarantees the FTE groups match `\d+(\.\d+)?` and the salary
groups match `\d{1,3}(,\d{3})*\.\d{2}` (the `$` signs are outside the
groups). -/
structure EntryMatch where
  name : String
  title : String
  tenure : String
  presentFte : String
  proposedFte : String
  presentSalary : String
  proposedSalary : String
deriving DecidableEq, Repr

/-- Bare `float(...)` applied to a regex group (`float(match.group(4))` in
`parse_faculty_simple`); the group's grammar guarantees the parse succeeds. -/
def pyFloatGroup (s : String) : ℚ :=
  (pythonFloat s.data).getD 0

/-- The `Position` built from one entry match in `parse_faculty_simple`. -/
def positionOfMatch (m : EntryMatch) : Position :=
  ⟨m.title, m.tenure, "",
   pyFloatGroup m.presentFte, pyFloatGroup m.proposedFte,
   parse_salary m.presentSalary, parse_salary m.proposedSalary⟩

/-- Header-like names skipped by `parse_faculty_simple`. -/
def entryIsHeader (m : EntryMatch) : Bool :=
  strContains m.name "Siebel School" || strContains m.name "Engineering" ||
    strContains m.name "Board of Trustees"

/-- Loop state of `parse_faculty_simple`. -/
structure SimpleState where
  faculty : List FacultyMember
  current_name : Option String
  current_positions : List Position
deriving DecidableEq, Repr

/-- One iteration of the match loop in `parse_faculty_simple`: header-like
names are skipped; a name change flushes the previous person (when they have
positions); the match's position is then appended to the current person. -/
def simpleStep (st : SimpleState) (m : EntryMatch) : SimpleState :=
  if entryIsHeader m then st
  else
    let st1 :=
      match st.current_name with
      | some cn =>
        if m.name ≠ cn then
          { st with
            faculty := if st.current_positions ≠ [] then
                st.faculty ++ [FacultyMember.mk cn st.current_positions]
              else st.faculty,
            current_positions := [] }
        else st
      | none => st
    { st1 with current_name := some m.name,
               current_positions := st1.current_positions ++ [positionOfMatch m] }

/-- `parse_faculty_simple` of `parse_graybook.py` over the stream of entry
matches: fold the loop, then flush the last person. -/
def parse_faculty_simple (ms : List EntryMatch) : List FacultyMember :=
  let st := ms.foldl simpleStep ⟨[], none, []⟩
  match st.current_name with
  | some cn => if st.current_positions ≠ [] then st.faculty ++ [⟨cn, st.current_positions⟩]
               else st.faculty
  | none => st.faculty

/-- Start indices of the non-overlapping occurrences of a literal pattern,
modelling `re.finditer(re.escape(pattern), text)`; `fuel` bounds the scan. -/
def findOccsAux (hay pat : List Char) : ℕ → ℕ → List ℕ
  | 0, _ => []
  | fuel + 1, i =>
    if i + pat.length ≤ hay.length then
      if pat.isPrefixOf (hay.drop i) then
        i :: findOccsAux hay pat fuel (i + max pat.length 1)
      else findOccsAux hay pat fuel (i + 1)
    else []

/-- All non-overlapping occurrences of `pat` in `hay`. -/
def findOccs (hay pat : List Char) : List ℕ :=
  findOccsAux hay pat (hay.length + 1) 0

/-- Length of a match of the page-break pattern
`August \d+, 2025 Board of Trustees` anchored at the head of `l`. -/
def pageBreakAt (l : List Char) : Option ℕ :=
  let pre := "August ".data
  if pre.isPrefixOf l then
    let rest := l.drop pre.length
    let ds := rest.takeWhile Char.isDigit
    let post := ", 2025 Board of Trustees".data
    if ds.isEmpty then none
    else if post.isPrefixOf (rest.drop ds.length) then some (pre.length + ds.length + post.length)
    else none
  else none

/-- Leftmost match position of the page-break pattern, modelling
`re.search(...)` in `extract_department_section`. -/
def searchPageBreak (l : List Char) : Option ℕ :=
  (List.range (l.length + 1)).find? (fun i => (pageBreakAt (l.drop i)).isSome)

/-- `extract_department_section` of `parse_graybook.py`: raises
`ValueError("Department not found: ...")` when the literal pattern
`"<code> - <name>"` has no occurrence; otherwise slices each occurrence up to
the next page break (or 10000 characters) and joins the slices. -/
def extract_department_section (full_text dept_code dept_name : String) :
    Except String String :=
  let pattern := dept_code ++ " - " ++ dept_name
  let occs := findOccs full_text.data pattern.data
  if occs.isEmpty then
    .error ("Department not found: " ++ pattern)
  else
    let sections := occs.map (fun start =>
      let remaining := full_text.data.drop (start + pattern.length)
      let e :=
        match searchPageBreak remaining with
        | some j => start + pattern.length + j
        | none => start + 10000
      String.mk ((full_text.data.drop start).take (e - start)))
    .ok (String.intercalate " " sections)

/-- Section-extraction phase of `main` in `parse_graybook.py`; an `.error`
propagates out of `main` uncaught, terminating the process with a stack trace
and non-zero exit status. -/
def mainSectionPhase (full_text : String) : Except String String :=
  extract_department_section full_text "434" "Siebel School Comp & Data Sci"

/-- Keys of each faculty record written to `cs_faculty_salaries.json` by
`main` of `parse_graybook.py`, in source order: `is_full_time` (not
`is_full_time_here`) and no `is_joint_appointment` key. -/
def outputRecordFields : List String :=
  ["name", "faculty_type", "rank", "is_full_time",
   "total_present_salary", "total_proposed_salary", "total_present_fte", "positions"]

end Docx

namespace Analyze

/-- Faculty employment classes treated as faculty (not staff) in
`analyze_parity.py`. -/
def facultyClasses : List String := ["AA", "AB", "AL", "AM"]

/-- One faculty record of the intermediate JSON artifact as read by
`analyze_parity.py`. -/
structure FacultyEntry where
  name : String
  faculty_type : String
  rank : String
  is_full_time_here : Bool
  is_joint_appointment : Bool
  total_present_salary : ℚ
  total_proposed_salary : ℚ
  total_present_fte : ℚ
  positions : List Position
deriving DecidableEq, Repr

/-- `get_primary_faculty_salary` of `analyze_parity.py`. -/
def get_primary_faculty_salary (e : FacultyEntry) : ℚ :=
  let fp := e.positions.filter
    (fun p => facultyClasses.contains p.empl_class && decide (0 < p.present_salary))
  match fp.map (fun p => p.present_salary) with
  | [] => 0
  | s :: ss => ss.foldl max s

/-- `is_clean_appointment` of `analyze_parity.py`: a person is clean when at
most one of the teaching / research / tenure-track flags holds over the
titles of their faculty-class positions. -/
def is_clean_appointment (e : FacultyEntry) : Bool :=
  let fp := e.positions.filter (fun p => facultyClasses.contains p.empl_class)
  if fp.isEmpty then false
  else
    let titles := fp.map (fun p => pyUpper p.title)
    let has_teaching := titles.any (fun t =>
      strContains t "TCH" || strContains t "TEACHING" || strContains t "LECTURER")
    let has_research := titles.any (fun t => strContains t "RES ")
    let has_tenure_track := titles.any (fun t =>
      strContains t "PROF" && !(strContains t "TCH") && !(strContains t "RES") &&
        !(strContains t "TEACHING"))
    decide (has_teaching.toNat + has_research.toNat + has_tenure_track.toNat ≤ 1)

/-- The teaching / research / tenure-track flags of `is_clean_appointment`,
computed over the titles of the faculty-class positions. -/
def trackFlags (e : FacultyEntry) : Bool × Bool × Bool :=
  let fp := e.positions.filter (fun p => facultyClasses.contains p.empl_class)
  let titles := fp.map (fun p => pyUpper p.title)
  (titles.any (fun t =>
     strContains t "TCH" || strContains t "TEACHING" || strContains t "LECTURER"),
   titles.any (fun t => strContains t "RES "),
   titles.any (fun t =>
     strContains t "PROF" && !(strContains t "TCH") && !(strContains t "RES") &&
       !(strContains t "TEACHING")))

/-- Whether `main` of `analyze_parity.py` includes a record in the parity
statistics: full-time, clean appointment, non-zero primary faculty salary,
and a teaching or tenure-track faculty type. -/
def inParityStats (e : FacultyEntry) : Bool :=
  e.is_full_time_here && is_clean_appointment e &&
    decide (get_primary_faculty_salary e ≠ 0) &&
    (e.faculty_type == "teaching" || e.faculty_type == "tenure_track")

end Analyze

/-- Modelled from the spec: the intermediate-artifact record fields named in
§6 of the specification and in the claim, which the analysis stage expects of
every record of either pipeline's output. -/
def claimedRecordFields : List String :=
  ["name", "faculty_type", "rank", "is_full_time_here", "is_joint_appointment",
   "total_present_salary", "total_proposed_salary", "total_present_fte", "positions"]

/-- The spec's description of `primary_position`: the position of greatest
`present_salary` among those with positive salary, earliest first on ties,
falling back to the first position when no salary is positive. -/
def specPrimaryPosition (positions : List Position) : Option Position :=
  match positions.filter (fun p => decide (0 < p.present_salary)) with
  | q :: qs => some (maxBySalary q qs)
  | [] => positions.head?

/-- The claim's rank priority scan over an already-uppercased title:
`"ASST PROF"`/`"ASSISTANT"` → assistant; `"ASSOC PROF"`/`"ASSOCIATE"` →
associate; any other `"PROF"` → full; `"LECTURER"` with `"SR"` →
senior_lecturer; `"LECTURER"` → lecturer; `"INSTR"` → instructor; else
other. -/
def specRankScan (title : String) : String :=
  if strContains title "ASST PROF" || strContains title "ASSISTANT" then "assistant"
  else if strContains title "ASSOC PROF" || strContains title "ASSOCIATE" then "associate"
  else if strContains title "PROF" then "full"
  else if strContains title "LECTURER" && strContains title "SR" then "senior_lecturer"
  else if strContains title "LECTURER" then "lecturer"
  else if strContains title "INSTR" then "instructor"
  else "other"

/-- The rank priority scan actually implemented by the HTML pipeline: as
`specRankScan` but with `"ASSISTANT PROF"` and `"ASSOCIATE PROF"` in place of
the bare `"ASSISTANT"` and `"ASSOCIATE"` keywords. -/
def specRankScanHtml (title : String) : String :=
  if strContains title "ASST PROF" || strContains title "ASSISTANT PROF" then "assistant"
  else if strContains title "ASSOC PROF" || strContains title "ASSOCIATE PROF" then "associate"
  else if strContains title "PROF" then "full"
  else if strContains title "LECTURER" && strContains title "SR" then "senior_lecturer"
  else if strContains title "LECTURER" then "lecturer"
  else if strContains title "INSTR" then "instructor"
  else "other"

/-- The grammar `\d{1,3}(,\d{3})*\.\d{2}` continued after the leading digit
group: comma-separated three-digit groups ending in a dot and two digits. -/
def commaGroups : List Char → Bool
  | ',' :: a :: b :: c :: r => a.isDigit && b.isDigit && c.isDigit && commaGroups r
  | ['.', a, b] => a.isDigit && b.isDigit
  | _ => false

/-- Whether a string matches the salary-group grammar
`\d{1,3}(,\d{3})*\.\d{2}` of the entry regular expressions in
`parse_graybook.py` (the groups captured after a literal `$`). -/
def salaryGroupFormat (s : String) : Bool :=
  let ds := s.data.takeWhile Char.isDigit
  decide (1 ≤ ds.length) && decide (ds.length ≤ 3) && commaGroups (s.data.dropWhile Char.isDigit)

/-- The currency string `"$" ++ g0 ++ ",g₁,g₂..." ++ "." ++ d₁d₂` assembled
from its digit groups: the shape named by the claim for `parse_salary`. -/
def mkCurrency (g0 : List Char) (gs : List (List Char)) (d1 d2 : Char) : List Char :=
  '$' :: g0 ++ (gs.map (fun g => ',' :: g)).flatten ++ '.' :: [d1, d2]

/-- Well-formedness of the digit groups of `mkCurrency`, matching
`\$\d{1,3}(,\d{3})*\.\d{2}`. -/
def currencyGroupsOk (g0 : List Char) (gs : List (List Char)) (d1 d2 : Char) : Prop :=
  1 ≤ g0.length ∧ g0.length ≤ 3 ∧ (∀ c ∈ g0, c.isDigit = true) ∧
    (∀ g ∈ gs, g.length = 3 ∧ ∀ c ∈ g, c.isDigit = true) ∧
    d1.isDigit = true ∧ d2.isDigit = true

/-- The character list a salary cell is reduced to before the float parse:
`'$'` and `','` removed. -/
def cleanedSalaryChars (s : String) : List Char :=
  removeChar (removeChar s.data '$') ','

/-- First-maximum selection used to state the spec's tie-breaking rule: the
first element of a non-empty list wins ties, the default is returned for an
empty list. -/
def specPick (dflt : Position) : List Position → Position
  | [] => dflt
  | q :: qs => maxBySalary q qs

/-! ### Helper lemmas -/

theorem isDigit_ne_special {c : Char} (h : c.isDigit = true) :
    c ≠ '$' ∧ c ≠ ',' ∧ c ≠ '.' ∧ c ≠ '_' ∧ c ≠ '-' ∧ c ≠ '+' := by
  refine ⟨?_, ?_, ?_, ?_, ?_, ?_⟩ <;> (rintro rfl; exact absurd h (by decide))

theorem isPyWS_eq_false_of_isDigit {c : Char} (h : c.isDigit = true) :
    isPyWS c = false := by
  simp only [isPyWS, Bool.or_eq_false_iff, beq_eq_false_iff_ne]
  refine ⟨⟨⟨⟨⟨?_, ?_⟩, ?_⟩, ?_⟩, ?_⟩, ?_⟩ <;> (rintro rfl; exact absurd h (by decide))

theorem isPyWS_dot : isPyWS '.' = false := by decide

theorem isPyWS_comma : isPyWS ',' = false := by decide

theorem dropWhile_eq_self_of_head {p : α → Bool} {l : List α}
    (h : ∀ c, l.head? = some c → p c = false) : l.dropWhile p = l := by
  cases l with
  | nil => rfl
  | cons a t =>
    have := h a rfl
    simp [List.dropWhile_cons, this]

theorem dropWhile_eq_self_of_forall {p : α → Bool} {l : List α}
    (h : ∀ c ∈ l, p c = false) : l.dropWhile p = l :=
  dropWhile_eq_self_of_head (fun c hc => by
    cases l with
    | nil => simp at hc
    | cons a t => simp at hc; exact hc ▸ h a (List.mem_cons_self a t))

theorem pyStripChars_eq_self {l : List Char} (h : ∀ c ∈ l, isPyWS c = false) :
    pyStripChars l = l := by
  unfold pyStripChars
  rw [dropWhile_eq_self_of_forall h,
      dropWhile_eq_self_of_forall (fun c hc => h c (List.mem_reverse.mp hc)),
      List.reverse_reverse]

theorem dropWhile_idem {p : α → Bool} (l : List α) :
    (l.dropWhile p).dropWhile p = l.dropWhile p := by
  induction l with
  | nil => rfl
  | cons a t ih =>
    by_cases h : p a = true
    · simp [List.dropWhile_cons, h, ih]
    · simp only [Bool.not_eq_true] at h
      simp [List.dropWhile_cons, h]

theorem head?_dropWhile_false {p : α → Bool} {l : List α} {c : α}
    (h : (l.dropWhile p).head? = some c) : p c = false := by
  have hh := List.head?_dropWhile_not p l
  rw [h] at hh
  exact hh

theorem pyStripChars_idem (l : List Char) :
    pyStripChars (pyStripChars l) = pyStripChars l := by
  have hfirst : (pyStripChars l).dropWhile isPyWS = pyStripChars l := by
    apply dropWhile_eq_self_of_head
    intro c hc
    have hsfx : (l.dropWhile isPyWS).reverse.dropWhile isPyWS <:+ (l.dropWhile isPyWS).reverse :=
      List.dropWhile_suffix isPyWS
    have hpre : pyStripChars l <+: l.dropWhile isPyWS := by
      have h2 := List.reverse_prefix.mpr hsfx
      rwa [List.reverse_reverse] at h2
    obtain ⟨t, ht⟩ := hpre
    have hheadA : (l.dropWhile isPyWS).head? = some c := by
      rw [← ht]
      cases hR : pyStripChars l with
      | nil => rw [hR] at hc; simp at hc
      | cons x xs =>
        rw [hR] at hc
        simp only [List.head?_cons, Option.some.injEq] at hc
        simp [hc]
    exact head?_dropWhile_false (p := isPyWS) (l := l) hheadA
  show (((pyStripChars l).dropWhile isPyWS).reverse.dropWhile isPyWS).reverse = pyStripChars l
  rw [hfirst]
  show (((l.dropWhile isPyWS).reverse.dropWhile isPyWS).reverse.reverse.dropWhile
    isPyWS).reverse = pyStripChars l
  rw [List.reverse_reverse, dropWhile_idem]
  rfl

theorem pythonFloat_pyStripChars (l : List Char) :
    pythonFloat (pyStripChars l) = pythonFloat l := by
  unfold pythonFloat
  rw [pyStripChars_idem]

theorem digitsCont_append {ds r : List Char} (hds : ∀ c ∈ ds, c.isDigit = true)
    (hr : ∀ c, r.head? = some c → c.isDigit = false ∧ c ≠ '_') :
    digitsCont (ds ++ r) = (ds, r) := by
  induction ds with
  | nil =>
    simp only [List.nil_append]
    cases r with
    | nil => rfl
    | cons c r' =>
      obtain ⟨h1, h2⟩ := hr c rfl
      unfold digitsCont
      rw [if_neg (by simp [h1]), if_neg h2]
  | cons d ds' ih =>
    have hd : d.isDigit = true := hds d (List.mem_cons_self d ds')
    have ih' := ih (fun c hc => hds c (List.mem_cons_of_mem d hc))
    show digitsCont (d :: (ds' ++ r)) = (d :: ds', r)
    unfold digitsCont
    rw [if_pos hd, ih']

theorem takeDigitpart_append {ds r : List Char} (hne : ds ≠ [])
    (hds : ∀ c ∈ ds, c.isDigit = true)
    (hr : ∀ c, r.head? = some c → c.isDigit = false ∧ c ≠ '_') :
    takeDigitpart (ds ++ r) = (ds, r) := by
  cases ds with
  | nil => exact absurd rfl hne
  | cons d ds' =>
    have hd : d.isDigit = true := hds d (List.mem_cons_self d ds')
    have h := digitsCont_append
      (fun c hc => hds c (List.mem_cons_of_mem d hc)) hr
    have hu : takeDigitpart (d :: (ds' ++ r)) =
        if d.isDigit = true then (d :: (digitsCont (ds' ++ r)).1, (digitsCont (ds' ++ r)).2)
        else ([], d :: (ds' ++ r)) := rfl
    show takeDigitpart (d :: (ds' ++ r)) = (d :: ds', r)
    rw [hu, if_pos hd, h]

theorem parseSign_of_head {l : List Char} {c : Char} (hh : l.head? = some c)
    (h1 : c ≠ '-') (h2 : c ≠ '+') : parseSign l = (false, l) := by
  cases l with
  | nil => simp at hh
  | cons a t =>
    simp only [List.head?_cons, Option.some.injEq] at hh
    subst hh
    simp [parseSign, h1, h2]

theorem parseExp_nonneg {m : ℚ} (hm : 0 ≤ m) {l : List Char} {q : ℚ}
    (h : parseExp m l = some q) : 0 ≤ q := by
  cases l with
  | nil => simp only [parseExp, Option.some.injEq] at h; exact h ▸ hm
  | cons c r =>
    simp only [parseExp] at h
    split at h
    · split at h
      · exact absurd h (by simp)
      · split at h
        · simp only [Option.some.injEq] at h
          subst h
          split
          · exact div_nonneg hm (by positivity)
          · exact mul_nonneg hm (by positivity)
        · exact absurd h (by simp)
    · exact absurd h (by simp)

theorem parseAfterSign_nonneg {l : List Char} {q : ℚ}
    (h : parseAfterSign l = some q) : 0 ≤ q := by
  unfold parseAfterSign at h
  split at h
  · split at h
    · exact absurd h (by simp)
    · exact parseExp_nonneg (by positivity) h
  · split at h
    · exact absurd h (by simp)
    · exact parseExp_nonneg (by positivity) h

theorem pythonFloat_nonneg {l : List Char} (hh : (pyStripChars l).head? ≠ some '-') :
    0 ≤ (pythonFloat l).getD 0 := by
  have hs : (parseSign (pyStripChars l)).1 = false := by
    cases hl : pyStripChars l with
    | nil => rfl
    | cons c t =>
      have hc : c ≠ '-' := fun hcm => hh (by rw [hl, hcm]; rfl)
      have hu : parseSign (c :: t) = if c = '-' then (true, t)
          else if c = '+' then (false, t) else (false, c :: t) := rfl
      rw [hu, if_neg hc]
      split <;> rfl
  unfold pythonFloat
  rcases hp : parseAfterSign (parseSign (pyStripChars l)).2 with _ | q
  · simp
  · simp only [hs, Bool.false_eq_true, if_false, Option.getD_some]
    exact parseAfterSign_nonneg hp

theorem maxBySalary_filter (rest : List Position) : ∀ (p : Position),
    (∀ x ∈ p :: rest, 0 ≤ x.present_salary) →
    maxBySalary p rest =
      specPick p ((p :: rest).filter (fun q => decide (0 < q.present_salary))) := by
  induction rest with
  | nil =>
    intro p _
    by_cases hp : 0 < p.present_salary <;>
      simp [maxBySalary, List.filter_cons, hp, specPick]
  | cons r rs ih =>
    intro p hnn
    have hnp : 0 ≤ p.present_salary := hnn p (List.mem_cons_self _ _)
    have hnr : 0 ≤ r.present_salary := hnn r (List.mem_cons_of_mem _ (List.mem_cons_self _ _))
    have hr_rs : ∀ x ∈ r :: rs, 0 ≤ x.present_salary :=
      fun x hx => hnn x (List.mem_cons_of_mem _ hx)
    have hp_rs : ∀ x ∈ p :: rs, 0 ≤ x.present_salary := by
      intro x hx
      rcases List.mem_cons.mp hx with h | h
      · exact h ▸ hnp
      · exact hnn x (List.mem_cons_of_mem _ (List.mem_cons_of_mem _ h))
    by_cases hlt : p.present_salary < r.present_salary
    · have hrpos : 0 < r.present_salary := lt_of_le_of_lt hnp hlt
      have hL : maxBySalary p (r :: rs) = maxBySalary r rs := by
        have hrfl0 : maxBySalary p (r :: rs) =
            if p.present_salary < r.present_salary then maxBySalary r rs
            else maxBySalary p rs := rfl
        rw [hrfl0, if_pos hlt]
      rw [hL, ih r hr_rs]
      by_cases hp : 0 < p.present_salary
      · rw [List.filter_cons_of_pos (by simpa using hrpos),
            List.filter_cons_of_pos (by simpa using hp),
            List.filter_cons_of_pos (by simpa using hrpos)]
        simp only [specPick]
        have hrfl : maxBySalary p (r :: rs.filter (fun q => decide (0 < q.present_salary))) =
            if p.present_salary < r.present_salary then
              maxBySalary r (rs.filter (fun q => decide (0 < q.present_salary)))
            else maxBySalary p (rs.filter (fun q => decide (0 < q.present_salary))) := rfl
        rw [hrfl, if_pos hlt]
      · rw [List.filter_cons_of_pos (by simpa using hrpos),
            List.filter_cons_of_neg (by simpa using hp),
            List.filter_cons_of_pos (by simpa using hrpos)]
        simp only [specPick]
    · have hL : maxBySalary p (r :: rs) = maxBySalary p rs := by
        have hrfl0 : maxBySalary p (r :: rs) =
            if p.present_salary < r.present_salary then maxBySalary r rs
            else maxBySalary p rs := rfl
        rw [hrfl0, if_neg hlt]
      rw [hL, ih p hp_rs]
      by_cases hp : 0 < p.present_salary
      · by_cases hr : 0 < r.present_salary
        · rw [List.filter_cons_of_pos (by simpa using hp),
              List.filter_cons_of_pos (by simpa using hp),
              List.filter_cons_of_pos (by simpa using hr)]
          simp only [specPick]
          have hrfl : maxBySalary p (r :: rs.filter (fun q => decide (0 < q.present_salary))) =
              if p.present_salary < r.present_salary then
                maxBySalary r (rs.filter (fun q => decide (0 < q.present_salary)))
              else maxBySalary p (rs.filter (fun q => decide (0 < q.present_salary))) := rfl
          rw [hrfl, if_neg hlt]
        · rw [List.filter_cons_of_pos (by simpa using hp),
              List.filter_cons_of_pos (by simpa using hp),
              List.filter_cons_of_neg (by simpa using hr)]
      · have hr : ¬ 0 < r.present_salary := fun hr0 =>
          hp (lt_of_lt_of_le hr0 (not_lt.mp hlt))
        rw [List.filter_cons_of_neg (by simpa using hp),
            List.filter_cons_of_neg (by simpa using hp),
            List.filter_cons_of_neg (by simpa using hr)]

/-- C1: for every `FacultyMember` with at least one `Position` (whose
salaries are non-negative, as parsed salaries are), `primary_position` is the
position of greatest `present_salary` among those with positive salary,
earliest in document order on ties, falling back to the first position when
none is positive — identically in the HTML pipeline and, via Python's `max`
over all positions, in the DOCX pipeline. -/
theorem c1_primary_position (m : Html.FacultyMember) (md : Docx.FacultyMember)
    (hsame : md.positions = m.positions) (hne : m.positions ≠ [])
    (hnn : ∀ p ∈ m.positions, 0 ≤ p.present_salary) :
    m.primary_position = specPrimaryPosition m.positions ∧
      md.primary_position = specPrimaryPosition m.positions := by
  obtain ⟨n, d, pos⟩ := m
  obtain ⟨n2, pos2⟩ := md
  simp only at hsame hne hnn
  subst hsame
  obtain ⟨a, l, rfl⟩ := List.exists_cons_of_ne_nil hne
  constructor
  · show Html.FacultyMember.primary_position ⟨n, d, a :: l⟩ = specPrimaryPosition (a :: l)
    cases hf : (a :: l).filter (fun p => decide (0 < p.present_salary)) with
    | nil =>
      simp [Html.FacultyMember.primary_position, specPrimaryPosition, hf]
    | cons q qs =>
      simp [Html.FacultyMember.primary_position, specPrimaryPosition, hf]
  · show Docx.FacultyMember.primary_position ⟨n2, a :: l⟩ = specPrimaryPosition (a :: l)
    have hd : Docx.FacultyMember.primary_position ⟨n2, a :: l⟩ = some (maxBySalary a l) := rfl
    rw [hd, maxBySalary_filter l a hnn]
    cases hf : (a :: l).filter (fun p => decide (0 < p.present_salary)) with
    | nil => simp [specPick, specPrimaryPosition, hf]
    | cons q qs => simp [specPick, specPrimaryPosition, hf]

/-- Witness for C1 at a member with salaries `0, 5, 5`: the first
maximum-salary position (the second one) is selected by both pipelines. -/
theorem c1_primary_position_witness :
    ((Html.FacultyMember.mk "A, B" "d"
        [⟨"T0", "", "AA", 1, 1, 0, 0⟩, ⟨"T1", "", "AA", 1, 1, 5, 5⟩,
         ⟨"T2", "", "AA", 1, 1, 5, 5⟩]).positions ≠ [] ∧
      (∀ p ∈ (Html.FacultyMember.mk "A, B" "d"
        [⟨"T0", "", "AA", 1, 1, 0, 0⟩, ⟨"T1", "", "AA", 1, 1, 5, 5⟩,
         ⟨"T2", "", "AA", 1, 1, 5, 5⟩]).positions, 0 ≤ p.present_salary)) ∧
    ((Html.FacultyMember.mk "A, B" "d"
        [⟨"T0", "", "AA", 1, 1, 0, 0⟩, ⟨"T1", "", "AA", 1, 1, 5, 5⟩,
         ⟨"T2", "", "AA", 1, 1, 5, 5⟩]).primary_position =
      specPrimaryPosition (Html.FacultyMember.mk "A, B" "d"
        [⟨"T0", "", "AA", 1, 1, 0, 0⟩, ⟨"T1", "", "AA", 1, 1, 5, 5⟩,
         ⟨"T2", "", "AA", 1, 1, 5, 5⟩]).positions ∧
      (Docx.FacultyMember.mk "A, B"
        [⟨"T0", "", "AA", 1, 1, 0, 0⟩, ⟨"T1", "", "AA", 1, 1, 5, 5⟩,
         ⟨"T2", "", "AA", 1, 1, 5, 5⟩]).primary_position =
      specPrimaryPosition (Html.FacultyMember.mk "A, B" "d"
        [⟨"T0", "", "AA", 1, 1, 0, 0⟩, ⟨"T1", "", "AA", 1, 1, 5, 5⟩,
         ⟨"T2", "", "AA", 1, 1, 5, 5⟩]).positions) :=
  ⟨⟨by decide, by decide⟩, c1_primary_position _ _ rfl (by decide) (by decide)⟩

/-- C2 counterexample: the title `"TCHPROF"` contains both `"TCH"` and
`"PROF"`, yet both pipelines classify it as `tenure_track`, because the
teaching keyword is `"TCH "` with a trailing space. -/
theorem c2_counterexample :
    strContains (pyUpper "TCHPROF") "TCH" = true ∧
    strContains (pyUpper "TCHPROF") "PROF" = true ∧
    Html.facultyTypeOfTitle "TCHPROF" = "tenure_track" ∧
    Docx.facultyTypeOfTitle "TCHPROF" = "tenure_track" :=
  ⟨by decide, by decide, by decide, by decide⟩

/-- C2 (amended): for every primary-position title whose uppercase form
contains `"TCH "` (with the trailing space) together with `"PROF"`,
`faculty_type` is `teaching` — never `tenure_track` — in both pipelines,
because the teaching rule is evaluated first. -/
theorem c2_tch_teaching (t : String)
    (h1 : strContains (pyUpper t) "TCH " = true)
    (h2 : strContains (pyUpper t) "PROF" = true) :
    Html.facultyTypeOfTitle t = "teaching" ∧ Docx.facultyTypeOfTitle t = "teaching" := by
  constructor
  · simp [Html.facultyTypeOfTitle, h1]
  · simp [Docx.facultyTypeOfTitle, h1]

/-- Witness for C2 at the claim's example title `"TCH ASST PROF"`. -/
theorem c2_tch_teaching_witness :
    (strContains (pyUpper "TCH ASST PROF") "TCH " = true ∧
      strContains (pyUpper "TCH ASST PROF") "PROF" = true) ∧
    (Html.facultyTypeOfTitle "TCH ASST PROF" = "teaching" ∧
      Docx.facultyTypeOfTitle "TCH ASST PROF" = "teaching") :=
  ⟨⟨by decide, by decide⟩, c2_tch_teaching "TCH ASST PROF" (by decide) (by decide)⟩

/-- C6 counterexample: the uppercased title `"ASSISTANT DEAN"` contains
`"ASSISTANT"`, so the claimed scan yields `assistant` — the DOCX pipeline
does, but the HTML pipeline (which requires `"ASSISTANT PROF"`) yields
`other`, so the same rule does not hold in both pipelines. -/
theorem c6_counterexample :
    strContains (pyUpper "ASSISTANT DEAN") "ASSISTANT" = true ∧
    Docx.rankOfTitle "ASSISTANT DEAN" = "assistant" ∧
    Html.rankOfTitle "ASSISTANT DEAN" = "other" :=
  ⟨by decide, by decide, by decide⟩

/-- C6 (amended): the claimed priority scan is exactly the DOCX pipeline's
`rank`; the HTML pipeline follows the same scan with `"ASSISTANT PROF"` and
`"ASSOCIATE PROF"` in place of the bare `"ASSISTANT"` / `"ASSOCIATE"`
keywords. -/
theorem c6_rank_scan (t : String) :
    Docx.rankOfTitle t = specRankScan (pyUpper t) ∧
    Html.rankOfTitle t = specRankScanHtml (pyUpper t) := by
  constructor
  · simp only [Docx.rankOfTitle, specRankScan]
    cases hb1 : strContains (pyUpper t) "ASST PROF" <;>
    cases hb2 : strContains (pyUpper t) "ASSISTANT" <;>
    cases hb3 : strContains (pyUpper t) "ASSOC PROF" <;>
    cases hb4 : strContains (pyUpper t) "ASSOCIATE" <;>
    cases hb5 : strContains (pyUpper t) "PROF" <;>
    cases hb6 : strContains (pyUpper t) "LECTURER" <;>
    cases hb7 : strContains (pyUpper t) "SR" <;>
    cases hb8 : strContains (pyUpper t) "INSTR" <;>
    simp [hb1, hb2, hb3, hb4, hb5, hb6, hb7, hb8]
  · simp only [Html.rankOfTitle, specRankScanHtml]
    cases hb1 : strContains (pyUpper t) "ASST PROF" <;>
    cases hb2 : strContains (pyUpper t) "ASSISTANT PROF" <;>
    cases hb3 : strContains (pyUpper t) "ASSOC PROF" <;>
    cases hb4 : strContains (pyUpper t) "ASSOCIATE PROF" <;>
    cases hb5 : strContains (pyUpper t) "PROF" <;>
    cases hb6 : strContains (pyUpper t) "SR" <;>
    cases hb7 : strContains (pyUpper t) "LECTURER" <;>
    cases hb8 : strContains (pyUpper t) "INSTR" <;>
    simp [hb1, hb2, hb3, hb4, hb5, hb6, hb7, hb8]

/-- C7: the HTML pipeline's intermediate records carry exactly the claimed
field set, but the DOCX pipeline's records carry `is_full_time` instead of
`is_full_time_here` and no `is_joint_appointment`, so the analysis stage
(which reads `is_full_time_here`) cannot read every record of either
pipeline's output. -/
theorem c7_record_fields :
    Html.outputRecordFields = claimedRecordFields ∧
    Docx.outputRecordFields ≠ claimedRecordFields ∧
    claimedRecordFields.contains "is_full_time_here" = true ∧
    Docx.outputRecordFields.contains "is_full_time_here" = false :=
  ⟨by decide, by decide, by decide, by decide⟩

/-- C4: a faculty entry all of whose positions carry a faculty employment
class and whose titles raise at least two of the teaching / research /
tenure-track flags is not a clean appointment, and the aggregator excludes it
from the parity statistics. -/
theorem c4_split_appointment_excluded (e : Analyze.FacultyEntry)
    (hclass : ∀ p ∈ e.positions, Analyze.facultyClasses.contains p.empl_class = true)
    (htwo : ((Analyze.trackFlags e).1 && (Analyze.trackFlags e).2.1) = true ∨
      ((Analyze.trackFlags e).1 && (Analyze.trackFlags e).2.2) = true ∨
      ((Analyze.trackFlags e).2.1 && (Analyze.trackFlags e).2.2) = true) :
    Analyze.is_clean_appointment e = false ∧ Analyze.inParityStats e = false := by
  have hclean : Analyze.is_clean_appointment e = false := by
    simp only [Analyze.trackFlags] at htwo
    simp only [Analyze.is_clean_appointment]
    split
    · rfl
    · rw [decide_eq_false_iff_not]
      intro hle
      rcases htwo with h | h | h <;>
        (rw [Bool.and_eq_true] at h
         obtain ⟨ha, hb⟩ := h
         rw [ha, hb] at hle
         simp only [Bool.toNat_true] at hle
         omega)
  refine ⟨hclean, ?_⟩
  simp [Analyze.inParityStats, hclean]

/-- Witness for C4 at the claim's example: positions titled `"LECTURER"` and
`"RES ASST PROF"`, both of class `AA`, span two tracks and are excluded. -/
theorem c4_split_appointment_excluded_witness :
    ((∀ p ∈ (Analyze.FacultyEntry.mk "X, Y" "teaching" "lecturer" true false
        150000 150000 1
        [⟨"LECTURER", "", "AA", 1, 1, 100000, 100000⟩,
         ⟨"RES ASST PROF", "", "AA", 0, 0, 50000, 50000⟩]).positions,
        Analyze.facultyClasses.contains p.empl_class = true) ∧
      ((Analyze.trackFlags (Analyze.FacultyEntry.mk "X, Y" "teaching" "lecturer" true false
        150000 150000 1
        [⟨"LECTURER", "", "AA", 1, 1, 100000, 100000⟩,
         ⟨"RES ASST PROF", "", "AA", 0, 0, 50000, 50000⟩])).1 &&
       (Analyze.trackFlags (Analyze.FacultyEntry.mk "X, Y" "teaching" "lecturer" true false
        150000 150000 1
        [⟨"LECTURER", "", "AA", 1, 1, 100000, 100000⟩,
         ⟨"RES ASST PROF", "", "AA", 0, 0, 50000, 50000⟩])).2.1) = true) ∧
    (Analyze.is_clean_appointment (Analyze.FacultyEntry.mk "X, Y" "teaching" "lecturer" true false
        150000 150000 1
        [⟨"LECTURER", "", "AA", 1, 1, 100000, 100000⟩,
         ⟨"RES ASST PROF", "", "AA", 0, 0, 50000, 50000⟩]) = false ∧
     Analyze.inParityStats (Analyze.FacultyEntry.mk "X, Y" "teaching" "lecturer" true false
        150000 150000 1
        [⟨"LECTURER", "", "AA", 1, 1, 100000, 100000⟩,
         ⟨"RES ASST PROF", "", "AA", 0, 0, 50000, 50000⟩]) = false) :=
  ⟨⟨by decide, by decide⟩,
    c4_split_appointment_excluded _ (by decide) (Or.inl (by decide))⟩

/-- C5: in the table-mode assembler, a processed row (8+ cells, not an
`Employee Total` row) whose name cell is blank or equal to the most recently
assembled member's name extends that member's positions with the row's
fields; any other name starts a new member. -/
theorem c5_continuation_rows (deptId : String) (fac : List Html.FacultyMember)
    (last : Html.FacultyMember) (row : List String)
    (hlast : fac.getLast? = some last)
    (hlen : ¬ row.length < 8)
    (het : strContains (row.getD 1 "") "Employee Total" = false) :
    Html.processRow deptId fac row =
      if row.getD 0 "" = "" ∨ row.getD 0 "" = last.name then
        fac.dropLast ++ [{ last with positions := last.positions ++ [Html.rowPosition row] }]
      else fac ++ [⟨row.getD 0 "", deptId, [Html.rowPosition row]⟩] := by
  unfold Html.processRow
  rw [if_neg hlen]
  simp only [het, Bool.false_eq_true, if_false, hlast]

/-- Witness for C5 at the claim's example rows: a `"Smith, Jane"` row
followed by a blank-name `"ADMIN STIPEND"` row merges into one member with
two positions. -/
theorem c5_continuation_rows_witness :
    (([Html.FacultyMember.mk "Smith, Jane" "d"
        [⟨"PROF", "A", "AA", 1, 1, 200000, 200000⟩]].getLast? =
      some (Html.FacultyMember.mk "Smith, Jane" "d"
        [⟨"PROF", "A", "AA", 1, 1, 200000, 200000⟩])) ∧
     ¬ (["", "ADMIN STIPEND", "", "BA", "0", "0", "$10,000.00", "$10,000.00"] :
        List String).length < 8 ∧
     strContains ((["", "ADMIN STIPEND", "", "BA", "0", "0", "$10,000.00",
        "$10,000.00"] : List String).getD 1 "") "Employee Total" = false) ∧
    Html.processRow "d"
      [Html.FacultyMember.mk "Smith, Jane" "d" [⟨"PROF", "A", "AA", 1, 1, 200000, 200000⟩]]
      ["", "ADMIN STIPEND", "", "BA", "0", "0", "$10,000.00", "$10,000.00"] =
      (if (["", "ADMIN STIPEND", "", "BA", "0", "0", "$10,000.00",
            "$10,000.00"] : List String).getD 0 "" = "" ∨
          (["", "ADMIN STIPEND", "", "BA", "0", "0", "$10,000.00",
            "$10,000.00"] : List String).getD 0 "" =
            (Html.FacultyMember.mk "Smith, Jane" "d"
              [⟨"PROF", "A", "AA", 1, 1, 200000, 200000⟩]).name then
        [Html.FacultyMember.mk "Smith, Jane" "d"
          [⟨"PROF", "A", "AA", 1, 1, 200000, 200000⟩]].dropLast ++
          [{ Html.FacultyMember.mk "Smith, Jane" "d"
              [⟨"PROF", "A", "AA", 1, 1, 200000, 200000⟩] with
            positions := (Html.FacultyMember.mk "Smith, Jane" "d"
              [⟨"PROF", "A", "AA", 1, 1, 200000, 200000⟩]).positions ++
              [Html.rowPosition ["", "ADMIN STIPEND", "", "BA", "0", "0",
                "$10,000.00", "$10,000.00"]] }]
      else [Html.FacultyMember.mk "Smith, Jane" "d"
          [⟨"PROF", "A", "AA", 1, 1, 200000, 200000⟩]] ++
        [⟨(["", "ADMIN STIPEND", "", "BA", "0", "0", "$10,000.00",
            "$10,000.00"] : List String).getD 0 "", "d",
          [Html.rowPosition ["", "ADMIN STIPEND", "", "BA", "0", "0",
            "$10,000.00", "$10,000.00"]]⟩]) :=
  ⟨⟨by decide, by decide, by decide⟩,
    c5_continuation_rows "d" _ _ _ rfl (by decide) (by decide)⟩

theorem containsSub_false_no_occ {hay pat : List Char} (h : containsSub hay pat = false) :
    ∀ i, i + pat.length ≤ hay.length → pat.isPrefixOf (hay.drop i) = false := by
  intro i hi
  by_contra hp
  rw [Bool.not_eq_false] at hp
  have htrue : containsSub hay pat = true := by
    unfold containsSub
    rw [List.any_eq_true]
    exact ⟨i, List.mem_range.mpr (by omega), hp⟩
  rw [h] at htrue
  exact absurd htrue (by simp)

theorem findOccsAux_nil {hay pat : List Char}
    (h : ∀ i, i + pat.length ≤ hay.length → pat.isPrefixOf (hay.drop i) = false) :
    ∀ fuel i, Docx.findOccsAux hay pat fuel i = [] := by
  intro fuel
  induction fuel with
  | zero => intro i; rfl
  | succ n ih =>
    intro i
    unfold Docx.findOccsAux
    split
    · rename_i hb
      rw [if_neg (by simp [h i hb])]
      exact ih (i + 1)
    · rfl

/-- C8 counterexample: with the Siebel School department absent from the
parsed department names, the HTML entry point's department-lookup phase
returns normally (`.ok none`, printing a message and exiting with status 0)
instead of terminating fatally with a raised error. -/
theorem c8_counterexample :
    Html.mainDeptPhase [("c1-d1", "123 - Mathematics")] = Except.ok none := rfl

/-- C8 (amended): when the requested department section is absent, the DOCX
entry point raises `ValueError` through `extract_department_section`
(terminating the run with a non-zero status), while the HTML entry point
prints a message and returns normally with exit status 0. -/
theorem c8_section_not_found (full_text : String)
    (hdocx : strContains full_text "434 - Siebel School Comp & Data Sci" = false)
    (deptNames : List (String × String))
    (hhtml : ∀ pr ∈ deptNames, strContains pr.2 "Siebel School" = false ∧
      strContains pr.2 "434 -" = false) :
    Docx.mainSectionPhase full_text =
      Except.error "Department not found: 434 - Siebel School Comp & Data Sci" ∧
    Html.mainDeptPhase deptNames = Except.ok none := by
  constructor
  · have hpat : ("434" : String) ++ " - " ++ "Siebel School Comp & Data Sci" =
        "434 - Siebel School Comp & Data Sci" := by decide
    have hocc : Docx.findOccs full_text.data
        ("434 - Siebel School Comp & Data Sci").data = [] :=
      findOccsAux_nil (containsSub_false_no_occ hdocx) _ 0
    simp only [Docx.mainSectionPhase, Docx.extract_department_section, hpat, hocc]
    rfl
  · unfold Html.mainDeptPhase
    have hfind : deptNames.find?
        (fun p => strContains p.2 "Siebel School" || strContains p.2 "434 -") = none := by
      rw [List.find?_eq_none]
      intro x hx
      obtain ⟨h1, h2⟩ := hhtml x hx
      simp [h1, h2]
    rw [hfind]

/-- Witness for C8 at a document and a department list that do not mention
the Siebel School at all. -/
theorem c8_section_not_found_witness :
    (strContains "no such department here" "434 - Siebel School Comp & Data Sci" = false ∧
      ∀ pr ∈ ([("c1-d1", "123 - Mathematics")] : List (String × String)),
        strContains pr.2 "Siebel School" = false ∧ strContains pr.2 "434 -" = false) ∧
    (Docx.mainSectionPhase "no such department here" =
      Except.error "Department not found: 434 - Siebel School Comp & Data Sci" ∧
     Html.mainDeptPhase [("c1-d1", "123 - Mathematics")] = Except.ok none) :=
  ⟨⟨by decide, by decide⟩,
    c8_section_not_found "no such department here" (by decide) _ (by decide)⟩

theorem handle_starttag_departments (st : PState) (t : String)
    (a : List (String × String)) :
    (Html.handle_starttag st t a).departments = st.departments := by
  cases hd : Html.dictGet a "id" <;>
    simp only [Html.handle_starttag, hd, apply_ite PState.departments, ite_self]

theorem handle_starttag_dept_id (st : PState) (t : String)
    (a : List (String × String)) (h : (Html.dictGet a "id").isSome = true → t ≠ "h3") :
    (Html.handle_starttag st t a).current_dept_id = st.current_dept_id := by
  cases hd : Html.dictGet a "id" with
  | none =>
    simp only [Html.handle_starttag, hd, apply_ite PState.current_dept_id, ite_self]
  | some v =>
    have ht : ¬ t = "h3" := h (by rw [hd]; rfl)
    simp only [Html.handle_starttag, hd, if_neg ht, apply_ite PState.current_dept_id, ite_self]

theorem handle_endtag_dept_id (st : PState) (t : String) :
    (Html.handle_endtag st t).current_dept_id = st.current_dept_id := by
  simp only [Html.handle_endtag]
  split_ifs <;> (try rfl) <;> (split <;> (try rfl) <;> split_ifs <;> rfl)

theorem handle_endtag_departments (st : PState) (t : String)
    (h : st.current_dept_id = none) :
    (Html.handle_endtag st t).departments = st.departments := by
  simp only [Html.handle_endtag]
  split_ifs <;> (try rfl) <;> (split <;> (try rfl) <;> simp_all)

theorem handle_data_frame (st : PState) (s : String) :
    (Html.handle_data st s).departments = st.departments ∧
    (Html.handle_data st s).current_dept_id = st.current_dept_id := by
  simp only [Html.handle_data]
  split_ifs <;> exact ⟨rfl, rfl⟩

theorem step_preserves_no_dept (st : PState) (e : HtmlEvent)
    (h1 : st.current_dept_id = none) (h2 : st.departments = [])
    (hne : Html.isDeptHeading e = false) :
    (Html.step st e).current_dept_id = none ∧ (Html.step st e).departments = [] := by
  cases e with
  | startTag t a =>
    simp only [Html.isDeptHeading, Bool.and_eq_false_iff] at hne
    refine ⟨?_, ?_⟩
    · rw [Html.step, handle_starttag_dept_id st t a ?_, h1]
      intro hsome
      rcases hne with hne | hne
      · intro hth3
        rw [hth3] at hne
        simp at hne
      · rw [hne] at hsome
        simp at hsome
    · rw [Html.step, handle_starttag_departments, h2]
  | endTag t =>
    refine ⟨?_, ?_⟩
    · rw [Html.step, handle_endtag_dept_id, h1]
    · rw [Html.step, handle_endtag_departments st t h1, h2]
  | textData s =>
    refine ⟨?_, ?_⟩
    · rw [Html.step, (handle_data_frame st s).2, h1]
    · rw [Html.step, (handle_data_frame st s).1, h2]

theorem foldl_step_no_dept (events : List HtmlEvent) :
    ∀ (st : PState), st.current_dept_id = none → st.departments = [] →
    (∀ e ∈ events, Html.isDeptHeading e = false) →
    (events.foldl Html.step st).current_dept_id = none ∧
      (events.foldl Html.step st).departments = [] := by
  induction events with
  | nil => intro st h1 h2 _; exact ⟨h1, h2⟩
  | cons e es ih =>
    intro st h1 h2 hno
    obtain ⟨g1, g2⟩ := step_preserves_no_dept st e h1 h2 (hno e (List.mem_cons_self _ _))
    exact ih _ g1 g2 (fun x hx => hno x (List.mem_cons_of_mem _ hx))

/-- C10: an event stream containing no department heading (no `h3` start tag
with an `id` attribute) leaves the departments mapping empty: every table row
seen before any heading is silently discarded and no `FacultyMember` is
assembled outside a department entry. -/
theorem c10_rows_before_heading_discarded (events : List HtmlEvent)
    (hno : ∀ e ∈ events, Html.isDeptHeading e = false) :
    (Html.feed events).departments = [] :=
  (foldl_step_no_dept events Html.initState rfl rfl hno).2

/-- Witness for C10: a full 8-cell table row fed before any heading leaves
the departments mapping empty. -/
theorem c10_rows_before_heading_discarded_witness :
    (∀ e ∈ ([.startTag "table" [], .startTag "tr" [],
        .startTag "td" [], .textData "Smith, Jane", .endTag "td",
        .startTag "td" [], .textData "PROF", .endTag "td",
        .startTag "td" [], .textData "A", .endTag "td",
        .startTag "td" [], .textData "AA", .endTag "td",
        .startTag "td" [], .textData "1", .endTag "td",
        .startTag "td" [], .textData "1", .endTag "td",
        .startTag "td" [], .textData "$100.00", .endTag "td",
        .startTag "td" [], .textData "$100.00", .endTag "td",
        .endTag "tr", .endTag "table"] : List HtmlEvent),
      Html.isDeptHeading e = false) ∧
    (Html.feed [.startTag "table" [], .startTag "tr" [],
        .startTag "td" [], .textData "Smith, Jane", .endTag "td",
        .startTag "td" [], .textData "PROF", .endTag "td",
        .startTag "td" [], .textData "A", .endTag "td",
        .startTag "td" [], .textData "AA", .endTag "td",
        .startTag "td" [], .textData "1", .endTag "td",
        .startTag "td" [], .textData "1", .endTag "td",
        .startTag "td" [], .textData "$100.00", .endTag "td",
        .startTag "td" [], .textData "$100.00", .endTag "td",
        .endTag "tr", .endTag "table"]).departments = [] :=
  ⟨by decide, c10_rows_before_heading_discarded _ (by decide)⟩

theorem commaGroups_chars (l : List Char) (h : commaGroups l = true) :
    ∀ c ∈ l, c.isDigit = true ∨ c = ',' ∨ c = '.' := by
  induction l using commaGroups.induct with
  | case1 a b c r ih =>
    simp only [commaGroups, Bool.and_eq_true] at h
    obtain ⟨⟨⟨ha, hb⟩, hc⟩, hr⟩ := h
    intro x hx
    rcases hx with _ | ⟨_, hx⟩
    · exact Or.inr (Or.inl rfl)
    · rcases hx with _ | ⟨_, hx⟩
      · exact Or.inl ha
      · rcases hx with _ | ⟨_, hx⟩
        · exact Or.inl hb
        · rcases hx with _ | ⟨_, hx⟩
          · exact Or.inl hc
          · exact ih hr x hx
  | case2 a b =>
    simp only [commaGroups, Bool.and_eq_true] at h
    obtain ⟨ha, hb⟩ := h
    intro x hx
    rcases hx with _ | ⟨_, hx⟩
    · exact Or.inr (Or.inr rfl)
    · rcases hx with _ | ⟨_, hx⟩
      · exact Or.inl ha
      · rcases hx with _ | ⟨_, hx⟩
        · exact Or.inl hb
        · exact absurd hx (List.not_mem_nil x)
  | case3 t h1 h2 =>
    exfalso
    rw [commaGroups] at h
    · exact absurd h (by simp)
    · exact h1
    · exact h2

theorem salaryGroupFormat_chars {s : String} (h : salaryGroupFormat s = true) :
    ∀ c ∈ s.data, c.isDigit = true ∨ c = ',' ∨ c = '.' := by
  unfold salaryGroupFormat at h
  rw [Bool.and_eq_true, Bool.and_eq_true] at h
  obtain ⟨⟨_, _⟩, h3⟩ := h
  intro c hc
  rw [← List.takeWhile_append_dropWhile (p := Char.isDigit) (l := s.data)] at hc
  rcases List.mem_append.mp hc with hc | hc
  · exact Or.inl (List.mem_takeWhile_imp hc)
  · exact commaGroups_chars _ h3 c hc

theorem parse_salary_nonneg_html {s : String}
    (h : (pyStripChars (cleanedSalaryChars s)).head? ≠ some '-') :
    0 ≤ Html.parse_salary s := by
  show 0 ≤ (pythonFloat (pyStripChars (cleanedSalaryChars s))).getD 0
  apply pythonFloat_nonneg
  rw [pyStripChars_idem]
  exact h

theorem parse_salary_nonneg_docx {s : String}
    (h : (pyStripChars (cleanedSalaryChars s)).head? ≠ some '-') :
    0 ≤ Docx.parse_salary s := by
  show 0 ≤ (pythonFloat (cleanedSalaryChars s)).getD 0
  exact pythonFloat_nonneg h

theorem format_head_not_minus {s : String} (h : salaryGroupFormat s = true) :
    (pyStripChars (cleanedSalaryChars s)).head? ≠ some '-' := by
  have hchars := salaryGroupFormat_chars h
  have hsub : ∀ c ∈ cleanedSalaryChars s, c.isDigit = true ∨ c = ',' ∨ c = '.' := by
    intro c hc
    exact hchars c (List.mem_of_mem_filter (List.mem_of_mem_filter hc))
  have hnws : ∀ c ∈ cleanedSalaryChars s, isPyWS c = false := by
    intro c hc
    rcases hsub c hc with h | h | h
    · exact isPyWS_eq_false_of_isDigit h
    · rw [h]; decide
    · rw [h]; decide
  rw [pyStripChars_eq_self hnws]
  intro hh
  have hmem : '-' ∈ cleanedSalaryChars s := List.mem_of_mem_head? (Option.mem_def.mpr hh)
  rcases hsub '-' hmem with h | h | h <;> simp at h

theorem parse_salary_nonneg_of_format {s : String} (h : salaryGroupFormat s = true) :
    0 ≤ Docx.parse_salary s :=
  parse_salary_nonneg_docx (format_head_not_minus h)

theorem simpleStep_preserves (st : Docx.SimpleState) (m : Docx.EntryMatch)
    (hm : 0 ≤ (Docx.positionOfMatch m).present_salary ∧
      0 ≤ (Docx.positionOfMatch m).proposed_salary)
    (h1 : ∀ f ∈ st.faculty, ∀ p ∈ f.positions,
      0 ≤ p.present_salary ∧ 0 ≤ p.proposed_salary)
    (h2 : ∀ p ∈ st.current_positions, 0 ≤ p.present_salary ∧ 0 ≤ p.proposed_salary) :
    (∀ f ∈ (Docx.simpleStep st m).faculty, ∀ p ∈ f.positions,
      0 ≤ p.present_salary ∧ 0 ≤ p.proposed_salary) ∧
    (∀ p ∈ (Docx.simpleStep st m).current_positions,
      0 ≤ p.present_salary ∧ 0 ≤ p.proposed_salary) := by
  by_cases hh : Docx.entryIsHeader m = true
  · have heq : Docx.simpleStep st m = st := by
      simp [Docx.simpleStep, hh]
    rw [heq]
    exact ⟨h1, h2⟩
  · cases hcn : st.current_name with
    | none =>
      have heq : Docx.simpleStep st m =
          { st with
            current_name := some m.name
            current_positions := st.current_positions ++ [Docx.positionOfMatch m] } := by
        simp [Docx.simpleStep, hh, hcn]
      rw [heq]
      refine ⟨h1, ?_⟩
      intro p hp
      rcases List.mem_append.mp hp with hp | hp
      · exact h2 p hp
      · rw [List.mem_singleton.mp hp]
        exact hm
    | some cn =>
      by_cases hname : m.name = cn
      · have heq : Docx.simpleStep st m =
            { st with
              current_name := some m.name
              current_positions := st.current_positions ++ [Docx.positionOfMatch m] } := by
          simp [Docx.simpleStep, hh, hcn, hname]
        rw [heq]
        refine ⟨h1, ?_⟩
        intro p hp
        rcases List.mem_append.mp hp with hp | hp
        · exact h2 p hp
        · rw [List.mem_singleton.mp hp]
          exact hm
      · have heq : Docx.simpleStep st m =
            { st with
              faculty := if st.current_positions ≠ [] then
                  st.faculty ++ [Docx.FacultyMember.mk cn st.current_positions]
                else st.faculty
              current_name := some m.name
              current_positions := [Docx.positionOfMatch m] } := by
          simp [Docx.simpleStep, hh, hcn, hname]
        rw [heq]
        constructor
        · intro f hf
          simp only at hf
          split at hf
          · rcases List.mem_append.mp hf with hf | hf
            · exact h1 f hf
            · rw [List.mem_singleton.mp hf]
              exact h2
          · exact h1 f hf
        · intro p hp
          rw [List.mem_singleton.mp hp]
          exact hm

theorem foldl_simpleStep_nonneg (ms : List Docx.EntryMatch) :
    ∀ (st : Docx.SimpleState),
    (∀ m ∈ ms, salaryGroupFormat m.presentSalary = true ∧
      salaryGroupFormat m.proposedSalary = true) →
    (∀ f ∈ st.faculty, ∀ p ∈ f.positions,
      0 ≤ p.present_salary ∧ 0 ≤ p.proposed_salary) →
    (∀ p ∈ st.current_positions, 0 ≤ p.present_salary ∧ 0 ≤ p.proposed_salary) →
    (∀ f ∈ (ms.foldl Docx.simpleStep st).faculty, ∀ p ∈ f.positions,
      0 ≤ p.present_salary ∧ 0 ≤ p.proposed_salary) ∧
    (∀ p ∈ (ms.foldl Docx.simpleStep st).current_positions,
      0 ≤ p.present_salary ∧ 0 ≤ p.proposed_salary) := by
  induction ms with
  | nil => intro st _ h1 h2; exact ⟨h1, h2⟩
  | cons m ms ih =>
    intro st hms h1 h2
    have hfmt := hms m (List.mem_cons_self _ _)
    have hpos : 0 ≤ (Docx.positionOfMatch m).present_salary ∧
        0 ≤ (Docx.positionOfMatch m).proposed_salary :=
      ⟨parse_salary_nonneg_of_format hfmt.1, parse_salary_nonneg_of_format hfmt.2⟩
    obtain ⟨g1, g2⟩ := simpleStep_preserves st m hpos h1 h2
    exact ih _ (fun x hx => hms x (List.mem_cons_of_mem _ hx)) g1 g2

theorem parse_faculty_simple_nonneg (ms : List Docx.EntryMatch)
    (hms : ∀ m ∈ ms, salaryGroupFormat m.presentSalary = true ∧
      salaryGroupFormat m.proposedSalary = true) :
    ∀ f ∈ Docx.parse_faculty_simple ms, ∀ p ∈ f.positions,
      0 ≤ p.present_salary ∧ 0 ≤ p.proposed_salary := by
  obtain ⟨g1, g2⟩ := foldl_simpleStep_nonneg ms ⟨[], none, []⟩ hms
    (by intro f hf; exact absurd hf (List.not_mem_nil f))
    (by intro p hp; exact absurd hp (List.not_mem_nil p))
  intro f hf
  unfold Docx.parse_faculty_simple at hf
  simp only [] at hf
  rcases hcn : (ms.foldl Docx.simpleStep ⟨[], none, []⟩).current_name with _ | cn <;>
    rw [hcn] at hf <;> simp only [] at hf
  · exact g1 f hf
  · split at hf
    · rcases List.mem_append.mp hf with hf | hf
      · exact g1 f hf
      · rw [List.mem_singleton.mp hf]
        exact g2
    · exact g1 f hf

theorem processRow_nonneg (deptId : String) (fac : List Html.FacultyMember)
    (row : List String)
    (hfac : ∀ f ∈ fac, ∀ p ∈ f.positions, 0 ≤ p.present_salary ∧ 0 ≤ p.proposed_salary)
    (h6 : (pyStripChars (cleanedSalaryChars (row.getD 6 ""))).head? ≠ some '-')
    (h7 : (pyStripChars (cleanedSalaryChars (row.getD 7 ""))).head? ≠ some '-') :
    ∀ f ∈ Html.processRow deptId fac row, ∀ p ∈ f.positions,
      0 ≤ p.present_salary ∧ 0 ≤ p.proposed_salary := by
  have hpos : 0 ≤ (Html.rowPosition row).present_salary ∧
      0 ≤ (Html.rowPosition row).proposed_salary :=
    ⟨parse_salary_nonneg_html h6, parse_salary_nonneg_html h7⟩
  intro f hf
  simp only [Html.processRow] at hf
  split at hf
  · exact hfac f hf
  · split at hf
    · exact hfac f hf
    · rcases hl : fac.getLast? with _ | last
      · rw [hl] at hf
        simp only at hf
        rcases List.mem_append.mp hf with hf | hf
        · exact hfac f hf
        · rw [List.mem_singleton.mp hf]
          intro p hp
          rw [List.mem_singleton.mp hp]
          exact hpos
      · rw [hl] at hf
        simp only at hf
        have hlastmem : last ∈ fac := List.mem_of_getLast?_eq_some hl
        split at hf
        · rcases List.mem_append.mp hf with hf | hf
          · exact hfac f ((List.dropLast_sublist fac).subset hf)
          · rw [List.mem_singleton.mp hf]
            intro p hp
            simp only at hp
            rcases List.mem_append.mp hp with hp | hp
            · exact hfac last hlastmem p hp
            · rw [List.mem_singleton.mp hp]
              exact hpos
        · rcases List.mem_append.mp hf with hf | hf
          · exact hfac f hf
          · rw [List.mem_singleton.mp hf]
            intro p hp
            rw [List.mem_singleton.mp hp]
            exact hpos

/-- C9 counterexample: an HTML table row whose salary cells are `"-100"`
yields a `Position` with a negative `present_salary`, so the parsed salary
fields are not non-negative for every input document. -/
theorem c9_counterexample :
    Html.processRow "d" [] ["X, Y", "PROF", "A", "AA", "1", "1", "-100", "-100"] =
      [Html.FacultyMember.mk "X, Y" "d" [⟨"PROF", "A", "AA", 1, 1, -100, -100⟩]] ∧
    (Html.rowPosition ["X, Y", "PROF", "A", "AA", "1", "1", "-100", "-100"]).present_salary < 0 :=
  ⟨by decide, by decide⟩

/-- C9 (amended): every `Position` produced by the DOCX assembler from
regex-matched entries (whose salary groups match `\d{1,3}(,\d{3})*\.\d{2}`)
has non-negative present and proposed salaries; a row processed by the HTML
assembler preserves non-negativity provided its salary cells do not begin
with a minus sign once `'$'`, `','` and surrounding whitespace are removed. -/
theorem c9_salaries_nonneg :
    (∀ (ms : List Docx.EntryMatch),
      (∀ m ∈ ms, salaryGroupFormat m.presentSalary = true ∧
        salaryGroupFormat m.proposedSalary = true) →
      ∀ f ∈ Docx.parse_faculty_simple ms, ∀ p ∈ f.positions,
        0 ≤ p.present_salary ∧ 0 ≤ p.proposed_salary) ∧
    (∀ (deptId : String) (fac : List Html.FacultyMember) (row : List String),
      (∀ f ∈ fac, ∀ p ∈ f.positions, 0 ≤ p.present_salary ∧ 0 ≤ p.proposed_salary) →
      (pyStripChars (cleanedSalaryChars (row.getD 6 ""))).head? ≠ some '-' →
      (pyStripChars (cleanedSalaryChars (row.getD 7 ""))).head? ≠ some '-' →
      ∀ f ∈ Html.processRow deptId fac row, ∀ p ∈ f.positions,
        0 ≤ p.present_salary ∧ 0 ≤ p.proposed_salary) :=
  ⟨parse_faculty_simple_nonneg, processRow_nonneg⟩

/-- Witness for C9: a DOCX entry match with salary groups `"175,424.00"` and
`"179,999.60"`, and an HTML row with salary cells `"$100.00"`, produce only
non-negative salaries. -/
theorem c9_salaries_nonneg_witness :
    ((∀ m ∈ ([⟨"Challen, Geoffrey Werner", "TCH PROF", "M", "1", "1",
        "175,424.00", "179,999.60"⟩] : List Docx.EntryMatch),
      salaryGroupFormat m.presentSalary = true ∧
        salaryGroupFormat m.proposedSalary = true) ∧
     (pyStripChars (cleanedSalaryChars ((["Smith, Jane", "PROF", "A", "AA", "1", "1",
        "$100.00", "$100.00"] : List String).getD 6 ""))).head? ≠ some '-') ∧
    ((∀ f ∈ Docx.parse_faculty_simple
        [⟨"Challen, Geoffrey Werner", "TCH PROF", "M", "1", "1",
          "175,424.00", "179,999.60"⟩],
      ∀ p ∈ f.positions, 0 ≤ p.present_salary ∧ 0 ≤ p.proposed_salary) ∧
     (∀ f ∈ Html.processRow "d" []
        ["Smith, Jane", "PROF", "A", "AA", "1", "1", "$100.00", "$100.00"],
      ∀ p ∈ f.positions, 0 ≤ p.present_salary ∧ 0 ≤ p.proposed_salary)) :=
  ⟨⟨by decide, by decide⟩,
    c9_salaries_nonneg.1 _ (by decide),
    c9_salaries_nonneg.2 "d" [] _ (by intro f hf; exact absurd hf (List.not_mem_nil f))
      (by decide) (by decide)⟩

theorem removeChar_eq_self {l : List Char} {d : Char} (h : ∀ c ∈ l, c ≠ d) :
    removeChar l d = l :=
  List.filter_eq_self.mpr (fun a ha => by simp [h a ha])

theorem removeComma_flat (gs : List (List Char))
    (hgs : ∀ g ∈ gs, ∀ c ∈ g, c.isDigit = true) :
    removeChar ((gs.map (fun g => ',' :: g)).flatten) ',' = gs.flatten := by
  induction gs with
  | nil => rfl
  | cons g gs' ih =>
    have hg : ∀ c ∈ g, c.isDigit = true := hgs g (List.mem_cons_self _ _)
    have ih' := ih (fun x hx => hgs x (List.mem_cons_of_mem _ hx))
    simp only [List.map_cons, List.flatten_cons]
    unfold removeChar at ih' ⊢
    rw [List.filter_append, List.filter_cons_of_neg (by simp), ih']
    rw [List.filter_eq_self.mpr (fun a ha => by
      simp [(isDigit_ne_special (hg a ha)).2.1])]

theorem mkCurrency_chars {g0 : List Char} {gs : List (List Char)} {d1 d2 : Char}
    (h : currencyGroupsOk g0 gs d1 d2) :
    ∀ c ∈ g0 ++ (gs.map (fun g => ',' :: g)).flatten ++ '.' :: [d1, d2],
      c.isDigit = true ∨ c = ',' ∨ c = '.' := by
  obtain ⟨_, _, hg0, hgs, h1, h2⟩ := h
  intro c hc
  rcases List.mem_append.mp hc with hc | hc
  · rcases List.mem_append.mp hc with hc | hc
    · exact Or.inl (hg0 c hc)
    · obtain ⟨g', hg', hcg⟩ := List.mem_flatten.mp hc
      obtain ⟨g, hg, rfl⟩ := List.mem_map.mp hg'
      rcases hcg with _ | ⟨_, hcg⟩
      · exact Or.inr (Or.inl rfl)
      · exact Or.inl ((hgs g hg).2 c hcg)
  · rcases hc with _ | ⟨_, hc⟩
    · exact Or.inr (Or.inr rfl)
    · rcases hc with _ | ⟨_, hc⟩
      · exact Or.inl h1
      · rcases hc with _ | ⟨_, hc⟩
        · exact Or.inl h2
        · exact absurd hc (List.not_mem_nil c)

theorem clean_mkCurrency {g0 : List Char} {gs : List (List Char)} {d1 d2 : Char}
    (h : currencyGroupsOk g0 gs d1 d2) :
    removeChar (removeChar (mkCurrency g0 gs d1 d2) '$') ',' =
      g0 ++ gs.flatten ++ '.' :: [d1, d2] := by
  obtain ⟨hlen1, hlen3, hg0, hgs, h1, h2⟩ := h
  have hok : currencyGroupsOk g0 gs d1 d2 := ⟨hlen1, hlen3, hg0, hgs, h1, h2⟩
  have hchars := mkCurrency_chars hok
  have hdollar : removeChar (mkCurrency g0 gs d1 d2) '$' =
      g0 ++ (gs.map (fun g => ',' :: g)).flatten ++ '.' :: [d1, d2] := by
    unfold mkCurrency removeChar
    rw [List.cons_append, List.cons_append, List.filter_cons_of_neg (by simp)]
    exact List.filter_eq_self.mpr (fun a ha => by
      rcases hchars a (by simpa [List.append_assoc] using ha) with hd | hd | hd
      · simp [(isDigit_ne_special hd).1]
      · rw [hd]; decide
      · rw [hd]; decide)
  rw [hdollar]
  unfold removeChar
  rw [List.filter_append, List.filter_append]
  have hg0f : List.filter (fun c => !(c == ',')) g0 = g0 :=
    List.filter_eq_self.mpr (fun a ha => by simp [(isDigit_ne_special (hg0 a ha)).2.1])
  have hflat : List.filter (fun c => !(c == ','))
      ((gs.map (fun g => ',' :: g)).flatten) = gs.flatten := by
    have hrc := removeComma_flat gs (fun g hg => (hgs g hg).2)
    unfold removeChar at hrc
    exact hrc
  have hdot : List.filter (fun c => !(c == ',')) ('.' :: [d1, d2]) = '.' :: [d1, d2] :=
    List.filter_eq_self.mpr (fun a ha => by
      rcases ha with _ | ⟨_, ha⟩
      · decide
      · rcases ha with _ | ⟨_, ha⟩
        · simp [(isDigit_ne_special h1).2.1]
        · rcases ha with _ | ⟨_, ha⟩
          · simp [(isDigit_ne_special h2).2.1]
          · exact absurd ha (List.not_mem_nil a))
  rw [hg0f, hflat, hdot]

theorem pythonFloat_digits_dot {D : List Char} {d1 d2 : Char}
    (hD : ∀ c ∈ D, c.isDigit = true) (hne : D ≠ [])
    (h1 : d1.isDigit = true) (h2 : d2.isDigit = true) :
    pythonFloat (D ++ '.' :: [d1, d2]) =
      some ((natOfDigits D : ℚ) + (natOfDigits [d1, d2] : ℚ) / 100) := by
  have hws : ∀ c ∈ D ++ '.' :: [d1, d2], isPyWS c = false := by
    intro c hc
    rcases List.mem_append.mp hc with hc | hc
    · exact isPyWS_eq_false_of_isDigit (hD c hc)
    · rcases hc with _ | ⟨_, hc⟩
      · decide
      · rcases hc with _ | ⟨_, hc⟩
        · exact isPyWS_eq_false_of_isDigit h1
        · rcases hc with _ | ⟨_, hc⟩
          · exact isPyWS_eq_false_of_isDigit h2
          · exact absurd hc (List.not_mem_nil c)
  have hstrip : pyStripChars (D ++ '.' :: [d1, d2]) = D ++ '.' :: [d1, d2] :=
    pyStripChars_eq_self hws
  obtain ⟨c0, D', rfl⟩ := List.exists_cons_of_ne_nil hne
  have hc0 : c0.isDigit = true := hD c0 (List.mem_cons_self _ _)
  have hsign : parseSign (c0 :: D' ++ '.' :: [d1, d2]) =
      (false, c0 :: D' ++ '.' :: [d1, d2]) :=
    parseSign_of_head rfl (isDigit_ne_special hc0).2.2.2.2.1
      (isDigit_ne_special hc0).2.2.2.2.2
  have hdotr : ∀ c : Char, (('.' :: [d1, d2] : List Char)).head? = some c →
      c.isDigit = false ∧ c ≠ '_' := by
    intro c hc
    simp only [List.head?_cons, Option.some.injEq] at hc
    subst hc
    exact ⟨by decide, by decide⟩
  have htdp : takeDigitpart ((c0 :: D') ++ '.' :: [d1, d2]) =
      (c0 :: D', '.' :: [d1, d2]) :=
    takeDigitpart_append (by simp) hD hdotr
  have hfrac : takeDigitpart ([d1, d2] ++ ([] : List Char)) = ([d1, d2], []) :=
    takeDigitpart_append (by simp)
      (by intro c hc
          rcases hc with _ | ⟨_, hc⟩
          · exact h1
          · rcases hc with _ | ⟨_, hc⟩
            · exact h2
            · exact absurd hc (List.not_mem_nil c))
      (by intro c hc; simp at hc)
  rw [List.append_nil] at hfrac
  have hpar : parseAfterSign (c0 :: D' ++ '.' :: [d1, d2]) =
      some ((natOfDigits (c0 :: D') : ℚ) + (natOfDigits [d1, d2] : ℚ) / 100) := by
    unfold parseAfterSign
    rw [htdp]
    simp only [hfrac, List.isEmpty_cons, Bool.false_and, Bool.false_eq_true, if_false]
    have hexp : parseExp ((natOfDigits (c0 :: D') : ℚ) +
        (natOfDigits [d1, d2] : ℚ) / ((10 : ℚ) ^ ([d1, d2] : List Char).length))
        ([] : List Char) = some ((natOfDigits (c0 :: D') : ℚ) +
        (natOfDigits [d1, d2] : ℚ) / ((10 : ℚ) ^ ([d1, d2] : List Char).length)) := rfl
    rw [hexp]
    norm_num
  unfold pythonFloat
  rw [hstrip, hsign]
  simp only [hpar]
  rfl

/-- C3: both pipelines' `parse_salary` map every currency string of the form
`"$1,234.56"` (dollar sign, comma thousands separators, two decimals) to
exactly the denoted rational value, and map any string whose cleaned body
Python's `float()` cannot parse to `0.0`; both functions are total, so no
error is ever raised. -/
theorem c3_parse_salary :
    (∀ (g0 : List Char) (gs : List (List Char)) (d1 d2 : Char),
      currencyGroupsOk g0 gs d1 d2 →
      Html.parse_salary (String.mk (mkCurrency g0 gs d1 d2)) =
        ((natOfDigits (g0 ++ gs.flatten) * 100 + natOfDigits [d1, d2] : ℕ) : ℚ) / 100 ∧
      Docx.parse_salary (String.mk (mkCurrency g0 gs d1 d2)) =
        ((natOfDigits (g0 ++ gs.flatten) * 100 + natOfDigits [d1, d2] : ℕ) : ℚ) / 100) ∧
    (∀ s : String, pythonFloat (cleanedSalaryChars s) = none →
      Html.parse_salary s = 0 ∧ Docx.parse_salary s = 0) := by
  constructor
  · intro g0 gs d1 d2 h
    obtain ⟨hlen1, hlen3, hg0, hgs, h1, h2⟩ := h
    have hok : currencyGroupsOk g0 gs d1 d2 := ⟨hlen1, hlen3, hg0, hgs, h1, h2⟩
    have hclean := clean_mkCurrency hok
    have hDdig : ∀ c ∈ g0 ++ gs.flatten, c.isDigit = true := by
      intro c hc
      rcases List.mem_append.mp hc with hc | hc
      · exact hg0 c hc
      · obtain ⟨g, hg, hcg⟩ := List.mem_flatten.mp hc
        exact (hgs g hg).2 c hcg
    have hDne : g0 ++ gs.flatten ≠ [] := by
      intro hnil
      rcases g0 with _ | ⟨a, g0'⟩
      · simp at hlen1
      · simp at hnil
    have hfloat := pythonFloat_digits_dot hDdig hDne h1 h2
    have hws : ∀ c ∈ g0 ++ gs.flatten ++ '.' :: [d1, d2], isPyWS c = false := by
      intro c hc
      rcases List.mem_append.mp hc with hc | hc
      · exact isPyWS_eq_false_of_isDigit (hDdig c hc)
      · rcases hc with _ | ⟨_, hc⟩
        · decide
        · rcases hc with _ | ⟨_, hc⟩
          · exact isPyWS_eq_false_of_isDigit h1
          · rcases hc with _ | ⟨_, hc⟩
            · exact isPyWS_eq_false_of_isDigit h2
            · exact absurd hc (List.not_mem_nil c)
    have hval : (natOfDigits (g0 ++ gs.flatten) : ℚ) + (natOfDigits [d1, d2] : ℚ) / 100 =
        ((natOfDigits (g0 ++ gs.flatten) * 100 + natOfDigits [d1, d2] : ℕ) : ℚ) / 100 := by
      push_cast
      ring
    constructor
    · show (pythonFloat (pyStripChars (removeChar (removeChar
          (String.mk (mkCurrency g0 gs d1 d2)).data '$') ','))).getD 0 = _
      rw [show (String.mk (mkCurrency g0 gs d1 d2)).data = mkCurrency g0 gs d1 d2 from rfl,
        hclean, pyStripChars_eq_self hws, hfloat]
      exact hval
    · show (pythonFloat (removeChar (removeChar
          (String.mk (mkCurrency g0 gs d1 d2)).data '$') ',')).getD 0 = _
      rw [show (String.mk (mkCurrency g0 gs d1 d2)).data = mkCurrency g0 gs d1 d2 from rfl,
        hclean, hfloat]
      exact hval
  · intro s hnone
    constructor
    · show (pythonFloat (pyStripChars (removeChar (removeChar s.data '$') ','))).getD 0 = 0
      rw [show removeChar (removeChar s.data '$') ',' = cleanedSalaryChars s from rfl,
        pythonFloat_pyStripChars, hnone]
      rfl
    · show (pythonFloat (removeChar (removeChar s.data '$') ',')).getD 0 = 0
      rw [show removeChar (removeChar s.data '$') ',' = cleanedSalaryChars s from rfl, hnone]
      rfl

/-- Witness for C3 at `"$1,234.56"` (which both pipelines parse to exactly
`123456/100`) and at the unparseable string `"abc"` (which both map to 0). -/
theorem c3_parse_salary_witness :
    (currencyGroupsOk ['1'] [['2', '3', '4']] '5' '6' ∧
      pythonFloat (cleanedSalaryChars "abc") = none ∧
      String.mk (mkCurrency ['1'] [['2', '3', '4']] '5' '6') = "$1,234.56") ∧
    ((Html.parse_salary (String.mk (mkCurrency ['1'] [['2', '3', '4']] '5' '6')) =
        ((natOfDigits (['1'] ++ ([['2', '3', '4']] : List (List Char)).flatten) * 100 +
          natOfDigits ['5', '6'] : ℕ) : ℚ) / 100 ∧
      Docx.parse_salary (String.mk (mkCurrency ['1'] [['2', '3', '4']] '5' '6')) =
        ((natOfDigits (['1'] ++ ([['2', '3', '4']] : List (List Char)).flatten) * 100 +
          natOfDigits ['5', '6'] : ℕ) : ℚ) / 100) ∧
     (Html.parse_salary "abc" = 0 ∧ Docx.parse_salary "abc" = 0)) :=
  ⟨⟨⟨by decide, by decide, by decide, by decide, by decide, by decide⟩, by decide, by decide⟩,
    c3_parse_salary.1 ['1'] [['2', '3', '4']] '5' '6'
      ⟨by decide, by decide, by decide, by decide, by decide, by decide⟩,
    c3_parse_salary.2 "abc" (by decide)⟩
